import Mathlib

/-!
Shallow embedding of the paper-trading ledger of `hedgefund/trading/paper_trader.py`
(class `PaperTrader`), together with proofs of the specification's claims about it.

Modelling conventions:
* Python floats are modelled as rationals (`ℚ`); Python's exact float semantics are
  not modelled, arithmetic identities are proved exactly over `ℚ`.
* The positions dictionary `self.positions` (symbol -> Position) is modelled as an
  association list `List (String × Position)`; dict semantics (at most one entry per
  key) is carried as a `Nodup` hypothesis where needed.
* The market-data service `market_data.get_current_price` is modelled as a stream of
  quotes `List ℚ` consumed one element per fetch; an empty stream models the quote
  call raising an exception.  This makes "how many times a price was fetched"
  observable in the remaining stream.
* Order inputs (either ORM rows or dicts monkey-patched into attribute holders) are
  modelled as records of `Option` fields; a `none` field models a missing attribute,
  whose access raises `AttributeError`.
* Python exceptions are modelled with `Except`, whose error value carries the
  (possibly partially mutated) trader state at the point of the raise; the
  `try/except` wrapper of `execute_order` is the function `execute_order` below,
  catching the error of `execute_order_inner`.
* The order-status database is modelled as a list of order rows inside the state;
  the per-row status update of the success path of `execute_order` (lines 315-331)
  is the `orders` update in `finish_success`.  Human-readable message strings are
  abstracted into the inductive `Msg`, one constructor per distinct message, carrying
  the values interpolated into the corresponding format string.
-/

namespace AiCapital

/-- `Position` of `hedgefund/models/models.py` (the columns `execute_order` and
`_update_positions` read or write; the symbol is the key of the positions map and
timestamps are not modelled). -/
structure Position where
  quantity : ℚ
  avg_entry_price : ℚ
  cost_basis : ℚ
  current_price : ℚ
  market_value : ℚ
  unrealized_pl : ℚ
  unrealized_pl_percent : ℚ
  deriving Repr, DecidableEq

/-- `OrderStatusEnum` of `hedgefund/models/models.py` (the members not used by the
trading module are collapsed into `other`). -/
inductive OrderStatus where
  | new
  | rejected
  | filled
  | other
  deriving Repr, DecidableEq

/-- A persisted `Order` row, as read and written by `execute_order` and
`process_pending_orders`.  `side` holds the `OrderSideEnum` value string
("buy" / "sell"). -/
structure OrderRec where
  id : ℕ
  symbol : String
  side : String
  quantity : ℚ
  status : OrderStatus
  filled_quantity : ℚ
  filled_avg_price : Option ℚ
  deriving Repr, DecidableEq

/-- The order argument of `execute_order`: an `Order` object or a dict converted to
an attribute holder.  A `none` field models a missing attribute.  `side` is the
string after the `.value` extraction of line 199. -/
structure OrderIn where
  id : Option ℕ
  symbol : Option String
  side : Option String
  quantity : Option ℚ
  deriving Repr, DecidableEq

/-- The in-memory state of a `PaperTrader`: `self.cash`, `self.positions`, the
configuration fields `self.max_position_size` and `self.initial_capital`, and the
persisted order rows (the database the success path of `execute_order` updates and
`process_pending_orders` queries). -/
structure TraderState where
  cash : ℚ
  positions : List (String × Position)
  orders : List OrderRec
  max_position_size : ℚ
  initial_capital : ℚ
  deriving Repr, DecidableEq

/-- The result messages of `execute_order`, one constructor per format string, with
the interpolated values as arguments. -/
inductive Msg where
  /-- "Insufficient cash: $.. available, $.. required" (line 211). -/
  | insufficientCash (available required : ℚ)
  /-- "Trade exceeds max position size (..% > ..%)" (line 226). -/
  | positionSizeExceeded (pct maxPct : ℚ)
  /-- "Cannot sell ..: position does not exist" (line 276). -/
  | noPosition (symbol : String)
  /-- "Cannot sell .. shares of ..: only .. owned" (line 289). -/
  | insufficientShares (requested owned : ℚ) (symbol : String)
  /-- "Executed .. .. shares of .. at $.." (line 339). -/
  | executed (side : String) (quantity price : ℚ) (symbol : String)
  /-- "Error executing order: .." (line 352). -/
  | execError
  deriving Repr, DecidableEq

/-- The result dictionary of `execute_order`.  Keys absent from a particular return
dict (`price` in the exception result, `value` outside the success result) are
`none`; the timestamp is not modelled. -/
structure ExecResult where
  success : Bool
  message : Msg
  symbol : String
  side : String
  quantity : ℚ
  price : Option ℚ
  value : Option ℚ
  deriving Repr, DecidableEq

/-- Python's `str.lower()` (for the ASCII side strings of `OrderSideEnum`). -/
def lower (s : String) : String := String.mk (s.data.map Char.toLower)

/-- Dict lookup `self.positions[symbol]` / `symbol in self.positions`. -/
def getPos : List (String × Position) → String → Option Position
  | [], _ => none
  | (s, p) :: rest, symbol => if s = symbol then some p else getPos rest symbol

/-- Dict store `self.positions[symbol] = position` (replace the entry if the key is
present, append otherwise). -/
def setPos : List (String × Position) → String → Position → List (String × Position)
  | [], symbol, position => [(symbol, position)]
  | (s, p) :: rest, symbol, position =>
      if s = symbol then (symbol, position) :: rest
      else (s, p) :: setPos rest symbol position

/-- Dict delete `del self.positions[symbol]` (removes the entry with the key; keys
are unique in a dict). -/
def delPos : List (String × Position) → String → List (String × Position)
  | [], _ => []
  | (s, p) :: rest, symbol =>
      if s = symbol then rest else (s, p) :: delPos rest symbol

/-- `sum(p.market_value for p in self.positions.values())` (lines 101 and 219). -/
def sumMV (ps : List (String × Position)) : ℚ :=
  (ps.map fun sp => sp.2.market_value).sum

/-- The sum of `cost_basis` over all positions (the quantity of the conservation
property of the spec). -/
def sumCB (ps : List (String × Position)) : ℚ :=
  (ps.map fun sp => sp.2.cost_basis).sum

/-- `portfolio_value` of line 219: cash plus the stored (possibly stale) market
values of the held positions. -/
def portfolio_value (st : TraderState) : ℚ :=
  st.cash + sumMV st.positions

/-- `trade_percent` of lines 220-221 for a trade of value `trade_value`. -/
def trade_percent (st : TraderState) (trade_value : ℚ) : ℚ :=
  if portfolio_value st > 0 then trade_value / portfolio_value st else 0

/-- The new position a buy creates when the symbol is not yet held (lines 258-268). -/
def buy_new_position (quantity current_price : ℚ) : Position :=
  { quantity := quantity
    avg_entry_price := current_price
    cost_basis := quantity * current_price
    current_price := current_price
    market_value := quantity * current_price
    unrealized_pl := 0
    unrealized_pl_percent := 0 }

/-- The merged position a buy produces when the symbol is already held
(lines 243-256): weighted-average entry price, cost basis set to the merged cost. -/
def buy_merged_position (position : Position) (quantity current_price : ℚ) : Position :=
  let total_quantity := position.quantity + quantity
  let new_cost := position.avg_entry_price * position.quantity
    + current_price * quantity
  let new_avg_price := new_cost / total_quantity
  { quantity := total_quantity
    avg_entry_price := new_avg_price
    cost_basis := new_cost
    current_price := current_price
    market_value := total_quantity * current_price
    unrealized_pl := total_quantity * current_price - new_cost
    unrealized_pl_percent :=
      if new_cost > 0 then (total_quantity * current_price - new_cost) / new_cost * 100
      else 0 }

/-- The reduced position a partial sell produces (lines 308-313): quantity
decreased, average entry price untouched, cost basis recomputed from it. -/
def sell_reduced_position (position : Position) (quantity current_price : ℚ) : Position :=
  { position with
    quantity := position.quantity - quantity
    market_value := (position.quantity - quantity) * current_price
    cost_basis := (position.quantity - quantity) * position.avg_entry_price
    unrealized_pl := (position.quantity - quantity) * current_price
      - (position.quantity - quantity) * position.avg_entry_price
    unrealized_pl_percent :=
      if (position.quantity - quantity) * position.avg_entry_price > 0 then
        ((position.quantity - quantity) * current_price
          - (position.quantity - quantity) * position.avg_entry_price)
          / ((position.quantity - quantity) * position.avg_entry_price) * 100
      else 0 }

/-- A rejection result dict of `execute_order` (lines 209-216, 224-231, 274-281,
287-294, identical apart from the message). -/
def reject_result (message : Msg) (symbol side : String)
    (quantity current_price : ℚ) : ExecResult :=
  ⟨false, message, symbol, side, quantity, some current_price, none⟩

/-- The database block of the success path of `execute_order` (lines 315-346): if
the order has an `id`, the matching row's status is set to `FILLED` with the filled
quantity and price recorded; then the success result dict is built (lines 337-346). -/
def finish_success (st : TraderState) (o : OrderIn) (symbol side : String)
    (quantity current_price : ℚ) (qs : List ℚ) : ExecResult × TraderState × List ℚ :=
  let orders' :=
    match o.id with
    | some oid =>
        st.orders.map fun ord =>
          if ord.id = oid then
            { ord with
              status := OrderStatus.filled
              filled_quantity := quantity
              filled_avg_price := some current_price }
          else ord
    | none => st.orders
  (⟨true, Msg.executed side quantity current_price symbol, symbol, side, quantity,
      some current_price, some (quantity * current_price)⟩,
    { st with orders := orders' }, qs)

/-- The body of `PaperTrader.execute_order` (lines 186-346), without the enclosing
`try/except`.  The error value carries the state and quote stream at the point the
exception is raised (the only raise after a mutation is the zero-division of line
246, reached with the cash of line 236 already deducted). -/
def execute_order_inner (st : TraderState) (o : OrderIn) (quotes : List ℚ) :
    Except (TraderState × List ℚ) (ExecResult × TraderState × List ℚ) :=
  match o.symbol, o.side, o.quantity with
  | some symbol, some side, some quantity =>
    match quotes with
    | [] => Except.error (st, [])
    | current_price :: qs =>
      -- Affordability check (lines 206-216)
      if lower side = "buy" ∧ current_price * quantity > st.cash then
        Except.ok (reject_result (Msg.insufficientCash st.cash (current_price * quantity))
          symbol side quantity current_price, st, qs)
      -- Position size limit (lines 218-231)
      else if lower side = "buy"
          ∧ trade_percent st (current_price * quantity) > st.max_position_size then
        Except.ok (reject_result
          (Msg.positionSizeExceeded (trade_percent st (current_price * quantity))
            st.max_position_size)
          symbol side quantity current_price, st, qs)
      else if lower side = "buy" then
        -- Deduct cash (line 236)
        let cash' := st.cash - current_price * quantity
        match getPos st.positions symbol with
        | some position =>
          -- Add to existing position (lines 240-256)
          if position.quantity + quantity = 0 then
            -- ZeroDivisionError at line 246, with the cash of line 236 already deducted
            Except.error ({ st with cash := cash' }, qs)
          else
            Except.ok <| finish_success
              { st with
                cash := cash'
                positions := setPos st.positions symbol
                  (buy_merged_position position quantity current_price) }
              o symbol side quantity current_price qs
        | none =>
          -- Create new position (lines 258-269)
          Except.ok <| finish_success
            { st with
              cash := cash'
              positions := setPos st.positions symbol
                (buy_new_position quantity current_price) }
            o symbol side quantity current_price qs
      else if lower side = "sell" then
        match getPos st.positions symbol with
        | none =>
          -- Position does not exist (lines 273-281)
          Except.ok (reject_result (Msg.noPosition symbol) symbol side quantity
            current_price, st, qs)
        | some position =>
          if position.quantity < quantity then
            -- Not enough shares (lines 286-294)
            Except.ok (reject_result
              (Msg.insufficientShares quantity position.quantity symbol)
              symbol side quantity current_price, st, qs)
          else
            -- Add cash (line 300)
            let cash' := st.cash + current_price * quantity
            if position.quantity = quantity then
              -- Close position (line 305)
              Except.ok <| finish_success
                { st with
                  cash := cash'
                  positions := delPos st.positions symbol }
                o symbol side quantity current_price qs
            else
              -- Reduce position (lines 308-313)
              Except.ok <| finish_success
                { st with
                  cash := cash'
                  positions := setPos st.positions symbol
                    (sell_reduced_position position quantity current_price) }
                o symbol side quantity current_price qs
      else
        -- A side that is neither "buy" nor "sell" falls through to the
        -- success return with no ledger mutation
        Except.ok (finish_success st o symbol side quantity current_price qs)
  | _, _, _ => Except.error (st, quotes)

/-- The failure dict the `except` handler of lines 348-356 builds, from `getattr`
with defaults. -/
def error_result (o : OrderIn) : ExecResult :=
  ⟨false, Msg.execError, o.symbol.getD "unknown", o.side.getD "unknown",
    o.quantity.getD 0, none, none⟩

/-- `PaperTrader.execute_order` (lines 176-356): the body wrapped in `try/except`,
the handler building the failure dict of lines 350-356 from `getattr` defaults. -/
def execute_order (st : TraderState) (o : OrderIn) (quotes : List ℚ) :
    ExecResult × TraderState × List ℚ :=
  match execute_order_inner st o quotes with
  | Except.ok r => r
  | Except.error (st', qs') => (error_result o, st', qs')

/-- The `OrderIn` view of a persisted order row, as `execute_order` reads it when
called from `process_pending_orders`. -/
def orderInOf (ord : OrderRec) : OrderIn :=
  ⟨some ord.id, some ord.symbol, some ord.side, some ord.quantity⟩

/-- The loop of `process_pending_orders` (lines 376-381) over the pending rows
fetched up front. -/
def run_pending : List OrderRec → TraderState → List ℚ →
    List ExecResult × TraderState × List ℚ
  | [], st, qs => ([], st, qs)
  | ord :: rest, st, qs =>
      let out := execute_order st (orderInOf ord) qs
      let rest_out := run_pending rest out.2.1 out.2.2
      (out.1 :: rest_out.1, rest_out.2.1, rest_out.2.2)

/-- `PaperTrader.process_pending_orders` (lines 358-381): fetch every order whose
status is `NEW`, then execute each in turn. -/
def process_pending_orders (st : TraderState) (quotes : List ℚ) :
    List ExecResult × TraderState × List ℚ :=
  run_pending (st.orders.filter fun ord => ord.status = OrderStatus.new) st quotes

/-- Folding `execute_order` over a list of order inputs (a sequence of calls, the
quote stream threaded through). -/
def run_orders : TraderState → List OrderIn → List ℚ → TraderState × List ℚ
  | st, [], qs => (st, qs)
  | st, o :: os, qs =>
      run_orders (execute_order st o qs).2.1 os (execute_order st o qs).2.2

/-- Whether a message is one of the four risk-gate rejections of `execute_order`
(insufficient cash, position size exceeded, missing position, insufficient
shares). -/
def Msg.isRiskRejection : Msg → Bool
  | Msg.insufficientCash _ _ => true
  | Msg.positionSizeExceeded _ _ => true
  | Msg.noPosition _ => true
  | Msg.insufficientShares _ _ _ => true
  | _ => false

/-- Whether a message is the insufficient-cash rejection of lines 209-216. -/
def Msg.isInsufficientCash : Msg → Bool
  | Msg.insufficientCash _ _ => true
  | _ => false

/-- The realized profit-and-loss of one `execute_order` call: the `trade_pl` the
code computes at line 297, `(current_price - position.avg_entry_price) * quantity`,
counted only when the call is a successful sell fill; zero otherwise. -/
def realized_pnl (st : TraderState) (o : OrderIn) (quotes : List ℚ) : ℚ :=
  match o.symbol, o.side, o.quantity, quotes with
  | some symbol, some side, some quantity, current_price :: _ =>
      if lower side = "sell" ∧ (execute_order st o quotes).1.success = true then
        match getPos st.positions symbol with
        | some position => (current_price - position.avg_entry_price) * quantity
        | none => 0
      else 0
  | _, _, _, _ => 0

/-- The sum of `realized_pnl` over a sequence of `execute_order` calls. -/
def total_realized : TraderState → List OrderIn → List ℚ → ℚ
  | _, [], _ => 0
  | st, o :: os, qs =>
      realized_pnl st o qs
        + total_realized (execute_order st o qs).2.1 os (execute_order st o qs).2.2

/-- Whether every call of a sequence of `execute_order` calls returns success. -/
def all_succeed : TraderState → List OrderIn → List ℚ → Bool
  | _, [], _ => true
  | st, o :: os, qs =>
      (execute_order st o qs).1.success
        && all_succeed (execute_order st o qs).2.1 os (execute_order st o qs).2.2

/-- Well-formedness of a positions map (spec §3): every position satisfies the
`costBasis = quantity × avgEntryPrice` invariant. -/
def CostBasisWF (ps : List (String × Position)) : Prop :=
  ∀ sp ∈ ps, sp.2.cost_basis = sp.2.quantity * sp.2.avg_entry_price

/-- Key uniqueness of the positions map (a Python dict holds at most one entry per
key). -/
def KeysNodup (ps : List (String × Position)) : Prop :=
  (ps.map Prod.fst).Nodup

/-- Strict positivity of every held quantity (spec §3: `quantity: integer > 0`,
zero-quantity positions are deleted, not stored). -/
def QuantitiesPos (ps : List (String × Position)) : Prop :=
  ∀ sp ∈ ps, 0 < sp.2.quantity

/-- The loop body of `PaperTrader._update_positions` (lines 149-159) for one
position.  The valuation quotes are a per-symbol map `String → Option ℚ`; a `none`
models `get_current_price` raising, in which case the per-position `except` of
line 165 leaves that position untouched. -/
def update_position (getPrice : String → Option ℚ) (symbol : String)
    (position : Position) : Position :=
  match getPrice symbol with
  | none => position
  | some current_price =>
      { position with
        current_price := current_price
        market_value := position.quantity * current_price
        unrealized_pl := position.quantity * current_price - position.cost_basis
        unrealized_pl_percent :=
          if position.cost_basis > 0 then
            (position.quantity * current_price - position.cost_basis)
              / position.cost_basis * 100
          else 0 }

/-- `PaperTrader._update_positions` (lines 147-174): refresh the derived fields of
every position from the current quotes (database commit not modelled). -/
def update_positions (getPrice : String → Option ℚ) (st : TraderState) : TraderState :=
  { st with positions := st.positions.map fun sp => (sp.1, update_position getPrice sp.1 sp.2) }

/-- One element of the `positions` list of the `get_portfolio_value` result
(lines 111-120). -/
structure PositionView where
  symbol : String
  quantity : ℚ
  avg_entry_price : ℚ
  current_price : ℚ
  market_value : ℚ
  cost_basis : ℚ
  unrealized_pl : ℚ
  unrealized_pl_percent : ℚ
  deriving Repr, DecidableEq

/-- The result dictionary of `get_portfolio_value` (lines 122-131; timestamp not
modelled). -/
structure PortfolioValue where
  cash : ℚ
  positions_value : ℚ
  equity : ℚ
  initial_capital : ℚ
  total_pl : ℚ
  total_pl_percent : ℚ
  positions : List PositionView
  deriving Repr, DecidableEq

/-- `PaperTrader.get_portfolio_value` (lines 89-131): run `_update_positions`, then
compute `positions_value`, `equity` and the P&L figures from the refreshed state.
The `except` fallback of lines 133-145 is unreachable in the embedding (every
quote failure is already caught per position inside `_update_positions`). -/
def get_portfolio_value (getPrice : String → Option ℚ) (st : TraderState) :
    PortfolioValue × TraderState :=
  let st' := update_positions getPrice st
  let positions_value := sumMV st'.positions
  let total_value := st'.cash + positions_value
  let total_pl := total_value - st'.initial_capital
  let total_pl_percent :=
    if st'.initial_capital > 0 then total_pl / st'.initial_capital * 100 else 0
  let positions_data := st'.positions.map fun sp =>
    PositionView.mk sp.1 sp.2.quantity sp.2.avg_entry_price sp.2.current_price
      sp.2.market_value sp.2.cost_basis sp.2.unrealized_pl sp.2.unrealized_pl_percent
  (⟨st'.cash, positions_value, total_value, st'.initial_capital, total_pl,
      total_pl_percent, positions_data⟩, st')

/-! ### Basic lemmas about the map operations and the side strings -/

theorem lower_buy : (lower "buy" = "buy") = True := eq_true (by decide)

theorem lower_buy_ne_sell : (lower "buy" = "sell") = False := eq_false (by decide)

theorem lower_sell_ne_buy : (lower "sell" = "buy") = False := eq_false (by decide)

theorem lower_sell : (lower "sell" = "sell") = True := eq_true (by decide)

theorem getPos_setPos_self (ps : List (String × Position)) (s : String) (p : Position) :
    getPos (setPos ps s p) s = some p := by
  induction ps with
  | nil => simp [setPos, getPos]
  | cons hd tl ih =>
      by_cases h : hd.1 = s
      · simp [setPos, getPos, h]
      · simp [setPos, getPos, h, ih]

theorem getPos_setPos_ne (ps : List (String × Position)) {s s' : String} (p : Position)
    (h : s' ≠ s) : getPos (setPos ps s p) s' = getPos ps s' := by
  have h' : ¬(s = s') := fun hh => h hh.symm
  induction ps with
  | nil => simp [setPos, getPos, h']
  | cons hd tl ih =>
      by_cases hh : hd.1 = s
      · simp [setPos, getPos, hh, h']
      · simp only [setPos, hh, if_false, getPos]
        by_cases hh' : hd.1 = s'
        · simp [hh']
        · simp [hh', ih]

theorem getPos_mem {ps : List (String × Position)} {s : String} {p : Position}
    (h : getPos ps s = some p) : (s, p) ∈ ps := by
  induction ps with
  | nil => simp [getPos] at h
  | cons hd tl ih =>
      by_cases hh : hd.1 = s
      · simp [getPos, hh] at h
        exact List.mem_cons.mpr (Or.inl (by rw [← hh, ← h]))
      · simp [getPos, hh] at h
        exact List.mem_cons_of_mem _ (ih h)

theorem getPos_eq_none {ps : List (String × Position)} {s : String}
    (h : s ∉ ps.map Prod.fst) : getPos ps s = none := by
  induction ps with
  | nil => simp [getPos]
  | cons hd tl ih =>
      simp only [List.map_cons, List.mem_cons, not_or] at h
      have hh : ¬(hd.1 = s) := fun hh => h.1 hh.symm
      simp [getPos, hh, ih h.2]

theorem getPos_delPos_self {ps : List (String × Position)} {s : String}
    (nd : KeysNodup ps) : getPos (delPos ps s) s = none := by
  induction ps with
  | nil => simp [delPos, getPos]
  | cons hd tl ih =>
      have nd' : (hd.1 ∉ tl.map Prod.fst) ∧ KeysNodup tl := by
        simpa [KeysNodup] using nd
      by_cases hh : hd.1 = s
      · simpa [delPos, hh] using getPos_eq_none (hh ▸ nd'.1)
      · simp [delPos, getPos, hh, ih nd'.2]

theorem sumCB_setPos_none {ps : List (String × Position)} {s : String}
    (p : Position) (h : getPos ps s = none) :
    sumCB (setPos ps s p) = sumCB ps + p.cost_basis := by
  induction ps with
  | nil => simp [setPos, sumCB]
  | cons hd tl ih =>
      by_cases hh : hd.1 = s
      · simp [getPos, hh] at h
      · simp [getPos, hh] at h
        simp [setPos, sumCB, hh] at ih ⊢
        rw [ih h]
        ring

theorem sumCB_setPos_some {ps : List (String × Position)} {s : String} {p0 : Position}
    (p : Position) (h : getPos ps s = some p0) :
    sumCB (setPos ps s p) = sumCB ps - p0.cost_basis + p.cost_basis := by
  induction ps with
  | nil => simp [getPos] at h
  | cons hd tl ih =>
      by_cases hh : hd.1 = s
      · simp [getPos, hh] at h
        simp [setPos, sumCB, hh, ← h]
        ring
      · simp [getPos, hh] at h
        simp [setPos, sumCB, hh] at ih ⊢
        rw [ih h]
        ring

theorem sumCB_delPos_some {ps : List (String × Position)} {s : String} {p0 : Position}
    (h : getPos ps s = some p0) :
    sumCB (delPos ps s) = sumCB ps - p0.cost_basis := by
  induction ps with
  | nil => simp [getPos] at h
  | cons hd tl ih =>
      by_cases hh : hd.1 = s
      · simp [getPos, hh] at h
        simp [delPos, sumCB, hh, ← h]
      · simp [getPos, hh] at h
        simp [delPos, sumCB, hh] at ih ⊢
        rw [ih h]
        ring

theorem costBasisWF_setPos {ps : List (String × Position)} {s : String} {p : Position}
    (hwf : CostBasisWF ps) (hp : p.cost_basis = p.quantity * p.avg_entry_price) :
    CostBasisWF (setPos ps s p) := by
  induction ps with
  | nil =>
      intro sp hsp
      simp [setPos] at hsp
      rw [hsp]
      exact hp
  | cons hd tl ih =>
      have hhd := hwf hd (List.mem_cons_self hd tl)
      have htl : CostBasisWF tl := fun sp hsp => hwf sp (List.mem_cons_of_mem hd hsp)
      by_cases hh : hd.1 = s
      · intro sp hsp
        simp [setPos, hh] at hsp
        rcases hsp with hsp | hsp
        · rw [hsp]
          exact hp
        · exact htl sp hsp
      · intro sp hsp
        simp [setPos, hh] at hsp
        rcases hsp with hsp | hsp
        · rw [hsp]
          exact hhd
        · exact ih htl sp hsp

theorem costBasisWF_delPos {ps : List (String × Position)} {s : String}
    (hwf : CostBasisWF ps) : CostBasisWF (delPos ps s) := by
  induction ps with
  | nil => intro sp hsp; simp [delPos] at hsp
  | cons hd tl ih =>
      have hhd := hwf hd (List.mem_cons_self hd tl)
      have htl : CostBasisWF tl := fun sp hsp => hwf sp (List.mem_cons_of_mem hd hsp)
      by_cases hh : hd.1 = s
      · simpa [delPos, hh] using htl
      · intro sp hsp
        simp [delPos, hh] at hsp
        rcases hsp with hsp | hsp
        · rw [hsp]
          exact hhd
        · exact ih htl sp hsp

/-! ### Path lemmas: one equation per control path of `execute_order` -/

theorem exec_missing (st : TraderState) (o : OrderIn) (quotes : List ℚ)
    (h : o.symbol = none ∨ o.side = none ∨ o.quantity = none) :
    execute_order st o quotes = (error_result o, st, quotes) := by
  rcases o with ⟨oid, osym, oside, oqty⟩
  rcases h with h | h | h <;> rcases osym with _ | s1 <;> rcases oside with _ | s2 <;>
    rcases oqty with _ | s3 <;> first | rfl | simp_all

theorem exec_no_quote (st : TraderState) (oid : Option ℕ) (symbol side : String)
    (q : ℚ) :
    execute_order st ⟨oid, some symbol, some side, some q⟩ []
      = (error_result ⟨oid, some symbol, some side, some q⟩, st, []) := rfl

theorem exec_reject_cash (st : TraderState) (oid : Option ℕ) (symbol side : String)
    (q p : ℚ) (qs : List ℚ) (hbuy : lower side = "buy") (hc : p * q > st.cash) :
    execute_order st ⟨oid, some symbol, some side, some q⟩ (p :: qs)
      = (reject_result (Msg.insufficientCash st.cash (p * q)) symbol side q p, st, qs) := by
  simp only [execute_order, execute_order_inner]
  rw [if_pos ⟨hbuy, hc⟩]

theorem exec_reject_size (st : TraderState) (oid : Option ℕ) (symbol side : String)
    (q p : ℚ) (qs : List ℚ) (hbuy : lower side = "buy") (hc : ¬(p * q > st.cash))
    (hsz : trade_percent st (p * q) > st.max_position_size) :
    execute_order st ⟨oid, some symbol, some side, some q⟩ (p :: qs)
      = (reject_result
          (Msg.positionSizeExceeded (trade_percent st (p * q)) st.max_position_size)
          symbol side q p, st, qs) := by
  simp only [execute_order, execute_order_inner]
  rw [if_neg (fun h => hc h.2), if_pos ⟨hbuy, hsz⟩]

theorem exec_buy_new (st : TraderState) (oid : Option ℕ) (symbol side : String)
    (q p : ℚ) (qs : List ℚ) (hbuy : lower side = "buy")
    (hc : ¬(p * q > st.cash))
    (hsz : ¬(trade_percent st (p * q) > st.max_position_size))
    (hget : getPos st.positions symbol = none) :
    execute_order st ⟨oid, some symbol, some side, some q⟩ (p :: qs)
      = finish_success
          { st with
            cash := st.cash - p * q
            positions := setPos st.positions symbol (buy_new_position q p) }
          ⟨oid, some symbol, some side, some q⟩ symbol side q p qs := by
  simp only [execute_order, execute_order_inner]
  rw [if_neg (fun h => hc h.2), if_neg (fun h => hsz h.2), if_pos hbuy, hget]

theorem exec_buy_merge (st : TraderState) (oid : Option ℕ) (symbol side : String)
    (q p : ℚ) (qs : List ℚ) (position : Position) (hbuy : lower side = "buy")
    (hc : ¬(p * q > st.cash))
    (hsz : ¬(trade_percent st (p * q) > st.max_position_size))
    (hget : getPos st.positions symbol = some position)
    (hnz : ¬(position.quantity + q = 0)) :
    execute_order st ⟨oid, some symbol, some side, some q⟩ (p :: qs)
      = finish_success
          { st with
            cash := st.cash - p * q
            positions := setPos st.positions symbol (buy_merged_position position q p) }
          ⟨oid, some symbol, some side, some q⟩ symbol side q p qs := by
  simp only [execute_order, execute_order_inner]
  rw [if_neg (fun h => hc h.2), if_neg (fun h => hsz h.2), if_pos hbuy, hget]
  dsimp only
  rw [if_neg hnz]

theorem exec_buy_merge_raise (st : TraderState) (oid : Option ℕ) (symbol side : String)
    (q p : ℚ) (qs : List ℚ) (position : Position) (hbuy : lower side = "buy")
    (hc : ¬(p * q > st.cash))
    (hsz : ¬(trade_percent st (p * q) > st.max_position_size))
    (hget : getPos st.positions symbol = some position)
    (hz : position.quantity + q = 0) :
    execute_order st ⟨oid, some symbol, some side, some q⟩ (p :: qs)
      = (error_result ⟨oid, some symbol, some side, some q⟩,
          { st with cash := st.cash - p * q }, qs) := by
  simp only [execute_order, execute_order_inner]
  rw [if_neg (fun h => hc h.2), if_neg (fun h => hsz h.2), if_pos hbuy, hget]
  dsimp only
  rw [if_pos hz]

theorem exec_sell_nopos (st : TraderState) (oid : Option ℕ) (symbol side : String)
    (q p : ℚ) (qs : List ℚ) (hsell : lower side = "sell")
    (hget : getPos st.positions symbol = none) :
    execute_order st ⟨oid, some symbol, some side, some q⟩ (p :: qs)
      = (reject_result (Msg.noPosition symbol) symbol side q p, st, qs) := by
  have hnb : ¬(lower side = "buy") := by rw [hsell]; decide
  simp only [execute_order, execute_order_inner]
  rw [if_neg (fun h => hnb h.1), if_neg (fun h => hnb h.1), if_neg hnb, if_pos hsell, hget]

theorem exec_sell_insufficient (st : TraderState) (oid : Option ℕ)
    (symbol side : String) (q p : ℚ) (qs : List ℚ) (position : Position)
    (hsell : lower side = "sell")
    (hget : getPos st.positions symbol = some position)
    (hlt : position.quantity < q) :
    execute_order st ⟨oid, some symbol, some side, some q⟩ (p :: qs)
      = (reject_result (Msg.insufficientShares q position.quantity symbol)
          symbol side q p, st, qs) := by
  have hnb : ¬(lower side = "buy") := by rw [hsell]; decide
  simp only [execute_order, execute_order_inner]
  rw [if_neg (fun h => hnb h.1), if_neg (fun h => hnb h.1), if_neg hnb, if_pos hsell, hget]
  dsimp only
  rw [if_pos hlt]

theorem exec_sell_close (st : TraderState) (oid : Option ℕ) (symbol side : String)
    (q p : ℚ) (qs : List ℚ) (position : Position) (hsell : lower side = "sell")
    (hget : getPos st.positions symbol = some position)
    (hnlt : ¬(position.quantity < q)) (heq : position.quantity = q) :
    execute_order st ⟨oid, some symbol, some side, some q⟩ (p :: qs)
      = finish_success
          { st with
            cash := st.cash + p * q
            positions := delPos st.positions symbol }
          ⟨oid, some symbol, some side, some q⟩ symbol side q p qs := by
  have hnb : ¬(lower side = "buy") := by rw [hsell]; decide
  simp only [execute_order, execute_order_inner]
  rw [if_neg (fun h => hnb h.1), if_neg (fun h => hnb h.1), if_neg hnb, if_pos hsell, hget]
  dsimp only
  rw [if_neg hnlt, if_pos heq]

theorem exec_sell_reduce (st : TraderState) (oid : Option ℕ) (symbol side : String)
    (q p : ℚ) (qs : List ℚ) (position : Position) (hsell : lower side = "sell")
    (hget : getPos st.positions symbol = some position)
    (hnlt : ¬(position.quantity < q)) (hne : ¬(position.quantity = q)) :
    execute_order st ⟨oid, some symbol, some side, some q⟩ (p :: qs)
      = finish_success
          { st with
            cash := st.cash + p * q
            positions := setPos st.positions symbol
              (sell_reduced_position position q p) }
          ⟨oid, some symbol, some side, some q⟩ symbol side q p qs := by
  have hnb : ¬(lower side = "buy") := by rw [hsell]; decide
  simp only [execute_order, execute_order_inner]
  rw [if_neg (fun h => hnb h.1), if_neg (fun h => hnb h.1), if_neg hnb, if_pos hsell, hget]
  dsimp only
  rw [if_neg hnlt, if_neg hne]

theorem exec_other_side (st : TraderState) (oid : Option ℕ) (symbol side : String)
    (q p : ℚ) (qs : List ℚ) (hnb : ¬(lower side = "buy"))
    (hns : ¬(lower side = "sell")) :
    execute_order st ⟨oid, some symbol, some side, some q⟩ (p :: qs)
      = finish_success st ⟨oid, some symbol, some side, some q⟩ symbol side q p qs := by
  simp only [execute_order, execute_order_inner]
  rw [if_neg (fun h => hnb h.1), if_neg (fun h => hnb h.1), if_neg hnb, if_neg hns]

theorem finish_success_success (st : TraderState) (o : OrderIn) (symbol side : String)
    (q p : ℚ) (qs : List ℚ) :
    (finish_success st o symbol side q p qs).1.success = true := rfl

theorem finish_success_message (st : TraderState) (o : OrderIn) (symbol side : String)
    (q p : ℚ) (qs : List ℚ) :
    (finish_success st o symbol side q p qs).1.message
      = Msg.executed side q p symbol := rfl

theorem finish_success_price (st : TraderState) (o : OrderIn) (symbol side : String)
    (q p : ℚ) (qs : List ℚ) :
    (finish_success st o symbol side q p qs).1.price = some p := rfl

theorem finish_success_value (st : TraderState) (o : OrderIn) (symbol side : String)
    (q p : ℚ) (qs : List ℚ) :
    (finish_success st o symbol side q p qs).1.value = some (q * p) := rfl

theorem finish_success_cash (st : TraderState) (o : OrderIn) (symbol side : String)
    (q p : ℚ) (qs : List ℚ) :
    (finish_success st o symbol side q p qs).2.1.cash = st.cash := rfl

theorem finish_success_positions (st : TraderState) (o : OrderIn) (symbol side : String)
    (q p : ℚ) (qs : List ℚ) :
    (finish_success st o symbol side q p qs).2.1.positions = st.positions := rfl

theorem finish_success_maxsize (st : TraderState) (o : OrderIn) (symbol side : String)
    (q p : ℚ) (qs : List ℚ) :
    (finish_success st o symbol side q p qs).2.1.max_position_size
      = st.max_position_size := rfl

theorem finish_success_quotes (st : TraderState) (o : OrderIn) (symbol side : String)
    (q p : ℚ) (qs : List ℚ) :
    (finish_success st o symbol side q p qs).2.2 = qs := rfl

/-- Exhaustive case analysis over the control paths of `execute_order`: to prove a
property of the result it suffices to prove it for the value returned by each path,
under that path's conditions. -/
theorem exec_cases (st : TraderState) (o : OrderIn) (quotes : List ℚ)
    (P : ExecResult × TraderState × List ℚ → Prop)
    (hmissing : o.symbol = none ∨ o.side = none ∨ o.quantity = none →
      P (error_result o, st, quotes))
    (hnoquote : ∀ oid symbol side q, o = ⟨oid, some symbol, some side, some q⟩ →
      quotes = [] → P (error_result o, st, []))
    (hrejcash : ∀ oid symbol side q p qs, o = ⟨oid, some symbol, some side, some q⟩ →
      quotes = p :: qs → lower side = "buy" → p * q > st.cash →
      P (reject_result (Msg.insufficientCash st.cash (p * q)) symbol side q p, st, qs))
    (hrejsize : ∀ oid symbol side q p qs, o = ⟨oid, some symbol, some side, some q⟩ →
      quotes = p :: qs → lower side = "buy" → ¬(p * q > st.cash) →
      trade_percent st (p * q) > st.max_position_size →
      P (reject_result
          (Msg.positionSizeExceeded (trade_percent st (p * q)) st.max_position_size)
          symbol side q p, st, qs))
    (hbuynew : ∀ oid symbol side q p qs, o = ⟨oid, some symbol, some side, some q⟩ →
      quotes = p :: qs → lower side = "buy" → ¬(p * q > st.cash) →
      ¬(trade_percent st (p * q) > st.max_position_size) →
      getPos st.positions symbol = none →
      P (finish_success
          { st with
            cash := st.cash - p * q
            positions := setPos st.positions symbol (buy_new_position q p) }
          o symbol side q p qs))
    (hbuymerge : ∀ oid symbol side q p qs position,
      o = ⟨oid, some symbol, some side, some q⟩ →
      quotes = p :: qs → lower side = "buy" → ¬(p * q > st.cash) →
      ¬(trade_percent st (p * q) > st.max_position_size) →
      getPos st.positions symbol = some position → ¬(position.quantity + q = 0) →
      P (finish_success
          { st with
            cash := st.cash - p * q
            positions := setPos st.positions symbol
              (buy_merged_position position q p) }
          o symbol side q p qs))
    (hbuyraise : ∀ oid symbol side q p qs position,
      o = ⟨oid, some symbol, some side, some q⟩ →
      quotes = p :: qs → lower side = "buy" → ¬(p * q > st.cash) →
      ¬(trade_percent st (p * q) > st.max_position_size) →
      getPos st.positions symbol = some position → position.quantity + q = 0 →
      P (error_result o, { st with cash := st.cash - p * q }, qs))
    (hsellno : ∀ oid symbol side q p qs, o = ⟨oid, some symbol, some side, some q⟩ →
      quotes = p :: qs → lower side = "sell" → getPos st.positions symbol = none →
      P (reject_result (Msg.noPosition symbol) symbol side q p, st, qs))
    (hsellins : ∀ oid symbol side q p qs position,
      o = ⟨oid, some symbol, some side, some q⟩ →
      quotes = p :: qs → lower side = "sell" →
      getPos st.positions symbol = some position → position.quantity < q →
      P (reject_result (Msg.insufficientShares q position.quantity symbol)
          symbol side q p, st, qs))
    (hsellclose : ∀ oid symbol side q p qs position,
      o = ⟨oid, some symbol, some side, some q⟩ →
      quotes = p :: qs → lower side = "sell" →
      getPos st.positions symbol = some position → ¬(position.quantity < q) →
      position.quantity = q →
      P (finish_success
          { st with
            cash := st.cash + p * q
            positions := delPos st.positions symbol }
          o symbol side q p qs))
    (hsellpart : ∀ oid symbol side q p qs position,
      o = ⟨oid, some symbol, some side, some q⟩ →
      quotes = p :: qs → lower side = "sell" →
      getPos st.positions symbol = some position → ¬(position.quantity < q) →
      ¬(position.quantity = q) →
      P (finish_success
          { st with
            cash := st.cash + p * q
            positions := setPos st.positions symbol
              (sell_reduced_position position q p) }
          o symbol side q p qs))
    (hother : ∀ oid symbol side q p qs, o = ⟨oid, some symbol, some side, some q⟩ →
      quotes = p :: qs → ¬(lower side = "buy") → ¬(lower side = "sell") →
      P (finish_success st o symbol side q p qs)) :
    P (execute_order st o quotes) := by
  rcases o with ⟨oid, osym, oside, oqty⟩
  rcases osym with _ | symbol
  · rw [exec_missing _ _ _ (Or.inl rfl)]
    exact hmissing (Or.inl rfl)
  rcases oside with _ | side
  · rw [exec_missing _ _ _ (Or.inr (Or.inl rfl))]
    exact hmissing (Or.inr (Or.inl rfl))
  rcases oqty with _ | q
  · rw [exec_missing _ _ _ (Or.inr (Or.inr rfl))]
    exact hmissing (Or.inr (Or.inr rfl))
  rcases quotes with _ | ⟨p, qs⟩
  · rw [exec_no_quote]
    exact hnoquote oid symbol side q rfl rfl
  by_cases hbuy : lower side = "buy"
  · by_cases hc : p * q > st.cash
    · rw [exec_reject_cash st oid symbol side q p qs hbuy hc]
      exact hrejcash oid symbol side q p qs rfl rfl hbuy hc
    by_cases hsz : trade_percent st (p * q) > st.max_position_size
    · rw [exec_reject_size st oid symbol side q p qs hbuy hc hsz]
      exact hrejsize oid symbol side q p qs rfl rfl hbuy hc hsz
    rcases hget : getPos st.positions symbol with _ | position
    · rw [exec_buy_new st oid symbol side q p qs hbuy hc hsz hget]
      exact hbuynew oid symbol side q p qs rfl rfl hbuy hc hsz hget
    by_cases hz : position.quantity + q = 0
    · rw [exec_buy_merge_raise st oid symbol side q p qs position hbuy hc hsz hget hz]
      exact hbuyraise oid symbol side q p qs position rfl rfl hbuy hc hsz hget hz
    · rw [exec_buy_merge st oid symbol side q p qs position hbuy hc hsz hget hz]
      exact hbuymerge oid symbol side q p qs position rfl rfl hbuy hc hsz hget hz
  by_cases hsell : lower side = "sell"
  · rcases hget : getPos st.positions symbol with _ | position
    · rw [exec_sell_nopos st oid symbol side q p qs hsell hget]
      exact hsellno oid symbol side q p qs rfl rfl hsell hget
    by_cases hlt : position.quantity < q
    · rw [exec_sell_insufficient st oid symbol side q p qs position hsell hget hlt]
      exact hsellins oid symbol side q p qs position rfl rfl hsell hget hlt
    by_cases heq : position.quantity = q
    · rw [exec_sell_close st oid symbol side q p qs position hsell hget hlt heq]
      exact hsellclose oid symbol side q p qs position rfl rfl hsell hget hlt heq
    · rw [exec_sell_reduce st oid symbol side q p qs position hsell hget hlt heq]
      exact hsellpart oid symbol side q p qs position rfl rfl hsell hget hlt heq
  · rw [exec_other_side st oid symbol side q p qs hbuy hsell]
    exact hother oid symbol side q p qs rfl rfl hbuy hsell

/-! ### Claim theorems -/

theorem error_result_not_risk (o : OrderIn) :
    (error_result o).message.isRiskRejection = false := rfl

theorem finish_success_not_risk (st : TraderState) (o : OrderIn) (symbol side : String)
    (q p : ℚ) (qs : List ℚ) :
    (finish_success st o symbol side q p qs).1.message.isRiskRejection = false := rfl

/-- Claim C9: `execute_order` never propagates an exception of its body; whenever
the body raises (missing order attribute, quote fetch failure, zero-division in the
merge), the returned result dict still exists and has `success = False`. -/
theorem execute_order_exception_result (st : TraderState) (o : OrderIn)
    (quotes : List ℚ) (e : TraderState × List ℚ)
    (h : execute_order_inner st o quotes = Except.error e) :
    (execute_order st o quotes).1.success = false := by
  rcases e with ⟨st2, qs2⟩
  simp [execute_order, h, error_result]

/-- Witness for C9: an order with every attribute missing raises, and the result
reports failure. -/
theorem execute_order_exception_result_witness :
    (execute_order ⟨0, [], [], 0, 0⟩ ⟨none, none, none, none⟩ []).1.success = false :=
  execute_order_exception_result ⟨0, [], [], 0, 0⟩ ⟨none, none, none, none⟩ []
    (⟨0, [], [], 0, 0⟩, []) rfl

/-- Claim C6: whenever `execute_order` rejects for one of the four risk reasons
(insufficient cash, position size exceeded, missing position, insufficient shares),
the whole trader state — cash, positions, and persisted orders — is returned
exactly as it was. -/
theorem risk_rejection_atomic (st : TraderState) (o : OrderIn) (quotes : List ℚ)
    (h : ((execute_order st o quotes).1.message).isRiskRejection = true) :
    (execute_order st o quotes).2.1 = st := by
  revert h
  refine exec_cases st o quotes
    (fun out => out.1.message.isRiskRejection = true → out.2.1 = st)
    ?_ ?_ ?_ ?_ ?_ ?_ ?_ ?_ ?_ ?_ ?_ ?_ <;> (try dsimp only) <;> intros <;>
    simp_all [Msg.isRiskRejection, finish_success, error_result, reject_result]

/-- Witness for C6: a buy of 100 shares at $20 against $1000 cash is rejected and
leaves the state untouched. -/
theorem risk_rejection_atomic_witness :
    (execute_order ⟨1000, [], [], 1, 1000⟩ ⟨none, some "AAPL", some "buy", some 100⟩
        [20]).2.1 = ⟨1000, [], [], 1, 1000⟩ :=
  risk_rejection_atomic ⟨1000, [], [], 1, 1000⟩ ⟨none, some "AAPL", some "buy", some 100⟩
    [20] (by rw [exec_reject_cash _ _ _ _ _ _ _ (by decide) (by norm_num)]; rfl)

/-- Claim C7: for a BUY order (with the quote stream returning `p` for this call),
`execute_order` rejects with the insufficient-cash failure exactly when
`quantity × price` strictly exceeds the cash balance; in particular a buy whose
cost equals the cash balance passes the affordability check. -/
theorem affordability_check (st : TraderState) (oid : Option ℕ) (symbol side : String)
    (q p : ℚ) (qs : List ℚ) (hbuy : lower side = "buy") :
    ((execute_order st ⟨oid, some symbol, some side, some q⟩ (p :: qs)).1.success = false
      ∧ ((execute_order st ⟨oid, some symbol, some side, some q⟩
          (p :: qs)).1.message).isInsufficientCash = true)
    ↔ q * p > st.cash := by
  constructor
  · rintro ⟨-, hm⟩
    revert hm
    refine exec_cases st ⟨oid, some symbol, some side, some q⟩ (p :: qs)
      (fun out => out.1.message.isInsufficientCash = true → q * p > st.cash)
      ?_ ?_ ?_ ?_ ?_ ?_ ?_ ?_ ?_ ?_ ?_ ?_
    all_goals (try dsimp only)
    all_goals intros
    all_goals simp_all [Msg.isInsufficientCash, finish_success, error_result,
      reject_result, mul_comm]
  · intro hc
    rw [exec_reject_cash st oid symbol side q p qs hbuy (by rw [mul_comm] at hc; exact hc)]
    exact ⟨rfl, rfl⟩

/-- Witness for C7: with $1000 cash, buying 100 shares quoted at $20 is rejected
for insufficient cash (100 × 20 > 1000), while buying 50 shares quoted at $20
(cost exactly $1000) is not. -/
theorem affordability_check_witness :
    (((execute_order ⟨1000, [], [], 1, 1000⟩ ⟨none, some "A", some "buy", some 100⟩
        [20]).1.success = false
      ∧ ((execute_order ⟨1000, [], [], 1, 1000⟩ ⟨none, some "A", some "buy", some 100⟩
          [20]).1.message).isInsufficientCash = true)
      ↔ (100 : ℚ) * 20 > 1000)
    ∧ (¬(((execute_order ⟨1000, [], [], 1, 1000⟩ ⟨none, some "A", some "buy", some 50⟩
        [20]).1.success = false
      ∧ ((execute_order ⟨1000, [], [], 1, 1000⟩ ⟨none, some "A", some "buy", some 50⟩
          [20]).1.message).isInsufficientCash = true))) := by
  constructor
  · exact affordability_check ⟨1000, [], [], 1, 1000⟩ none "A" "buy" 100 20 []
      (by decide)
  · rw [affordability_check ⟨1000, [], [], 1, 1000⟩ none "A" "buy" 50 20 [] (by decide)]
    norm_num

/-- Claim C5: a successful sell of exactly the held quantity removes the position
from the positions map entirely; a successful sell of less than the held quantity
decreases the quantity by the sold amount, leaves the average entry price
unchanged, and recomputes the cost basis as the new quantity times the average
entry price. -/
theorem sell_lifecycle (st : TraderState) (oid : Option ℕ) (symbol : String)
    (q p : ℚ) (qs : List ℚ) (position : Position)
    (nd : KeysNodup st.positions)
    (hget : getPos st.positions symbol = some position)
    (hle : q ≤ position.quantity) :
    (execute_order st ⟨oid, some symbol, some "sell", some q⟩ (p :: qs)).1.success = true
    ∧ (position.quantity = q →
        getPos (execute_order st ⟨oid, some symbol, some "sell", some q⟩
            (p :: qs)).2.1.positions symbol = none)
    ∧ (q < position.quantity →
        getPos (execute_order st ⟨oid, some symbol, some "sell", some q⟩
            (p :: qs)).2.1.positions symbol
          = some (sell_reduced_position position q p)
        ∧ (sell_reduced_position position q p).quantity = position.quantity - q
        ∧ (sell_reduced_position position q p).avg_entry_price
            = position.avg_entry_price
        ∧ (sell_reduced_position position q p).cost_basis
            = (position.quantity - q) * position.avg_entry_price) := by
  have hsell : lower "sell" = "sell" := by decide
  have hnlt : ¬(position.quantity < q) := not_lt.mpr hle
  by_cases heq : position.quantity = q
  · rw [exec_sell_close st oid symbol "sell" q p qs position hsell hget hnlt heq]
    refine ⟨rfl, fun _ => ?_, fun hlt => absurd heq (by rw [heq] at hlt; exact absurd hlt (lt_irrefl q))⟩
    rw [finish_success_positions]
    exact getPos_delPos_self nd
  · rw [exec_sell_reduce st oid symbol "sell" q p qs position hsell hget hnlt heq]
    refine ⟨rfl, fun h => absurd h heq, fun _ => ⟨?_, rfl, rfl, rfl⟩⟩
    rw [finish_success_positions]
    exact getPos_setPos_self _ _ _

/-- Witness for C5: a position of 10 shares at average price 5; selling 4 of them
succeeds (and on this input the partial branch applies: quantity 6, average 5,
cost basis 30). -/
theorem sell_lifecycle_witness :
    (execute_order ⟨100, [("AAPL", ⟨10, 5, 50, 5, 50, 0, 0⟩)], [], 1, 100⟩
        ⟨none, some "AAPL", some "sell", some 4⟩ [7]).1.success = true
    ∧ ((10 : ℚ) = 4 →
        getPos (execute_order ⟨100, [("AAPL", ⟨10, 5, 50, 5, 50, 0, 0⟩)], [], 1, 100⟩
            ⟨none, some "AAPL", some "sell", some 4⟩ [7]).2.1.positions "AAPL" = none)
    ∧ ((4 : ℚ) < 10 →
        getPos (execute_order ⟨100, [("AAPL", ⟨10, 5, 50, 5, 50, 0, 0⟩)], [], 1, 100⟩
            ⟨none, some "AAPL", some "sell", some 4⟩ [7]).2.1.positions "AAPL"
          = some (sell_reduced_position ⟨10, 5, 50, 5, 50, 0, 0⟩ 4 7)
        ∧ (sell_reduced_position ⟨10, 5, 50, 5, 50, 0, 0⟩ 4 7).quantity = 10 - 4
        ∧ (sell_reduced_position ⟨10, 5, 50, 5, 50, 0, 0⟩ 4 7).avg_entry_price = 5
        ∧ (sell_reduced_position ⟨10, 5, 50, 5, 50, 0, 0⟩ 4 7).cost_basis
            = (10 - 4) * 5) :=
  sell_lifecycle ⟨100, [("AAPL", ⟨10, 5, 50, 5, 50, 0, 0⟩)], [], 1, 100⟩ none "AAPL"
    4 7 [] ⟨10, 5, 50, 5, 50, 0, 0⟩ (by simp [KeysNodup]) rfl (by norm_num)

/-- Claim C4: buying `q1` shares of a fresh symbol quoted at `p1` and then `q2`
more quoted at `p2` (both calls succeeding) yields one position with quantity
`q1 + q2`, average entry price `(q1*p1 + q2*p2) / (q1+q2)` and cost basis
`q1*p1 + q2*p2`, exactly over `ℚ`. -/
theorem average_cost_two_buys (st : TraderState) (oid1 oid2 : Option ℕ)
    (symbol : String) (q1 q2 p1 p2 : ℚ) (qs : List ℚ)
    (hq1 : 0 < q1) (hq2 : 0 < q2)
    (hget : getPos st.positions symbol = none)
    (hs1 : (execute_order st ⟨oid1, some symbol, some "buy", some q1⟩
        (p1 :: p2 :: qs)).1.success = true)
    (hs2 : (execute_order
        (execute_order st ⟨oid1, some symbol, some "buy", some q1⟩ (p1 :: p2 :: qs)).2.1
        ⟨oid2, some symbol, some "buy", some q2⟩
        (execute_order st ⟨oid1, some symbol, some "buy", some q1⟩
          (p1 :: p2 :: qs)).2.2).1.success = true) :
    ∃ pos,
      getPos (execute_order
          (execute_order st ⟨oid1, some symbol, some "buy", some q1⟩ (p1 :: p2 :: qs)).2.1
          ⟨oid2, some symbol, some "buy", some q2⟩
          (execute_order st ⟨oid1, some symbol, some "buy", some q1⟩
            (p1 :: p2 :: qs)).2.2).2.1.positions symbol = some pos
      ∧ pos.quantity = q1 + q2
      ∧ pos.avg_entry_price = (q1 * p1 + q2 * p2) / (q1 + q2)
      ∧ pos.cost_basis = q1 * p1 + q2 * p2 := by
  have hbuy : lower "buy" = "buy" := by decide
  by_cases hc1 : p1 * q1 > st.cash
  · rw [exec_reject_cash st oid1 symbol "buy" q1 p1 (p2 :: qs) hbuy hc1] at hs1
    simp [reject_result] at hs1
  by_cases hsz1 : trade_percent st (p1 * q1) > st.max_position_size
  · rw [exec_reject_size st oid1 symbol "buy" q1 p1 (p2 :: qs) hbuy hc1 hsz1] at hs1
    simp [reject_result] at hs1
  rw [exec_buy_new st oid1 symbol "buy" q1 p1 (p2 :: qs) hbuy hc1 hsz1 hget]
    at hs2 ⊢
  rw [finish_success_quotes] at hs2 ⊢
  set stmid := (finish_success
    { st with
      cash := st.cash - p1 * q1
      positions := setPos st.positions symbol (buy_new_position q1 p1) }
    ⟨oid1, some symbol, some "buy", some q1⟩ symbol "buy" q1 p1 (p2 :: qs)).2.1
    with hstmid
  have hpos1 : getPos stmid.positions symbol = some (buy_new_position q1 p1) := by
    rw [hstmid, finish_success_positions]
    exact getPos_setPos_self _ _ _
  have hnz : ¬((buy_new_position q1 p1).quantity + q2 = 0) := by
    simp only [buy_new_position]
    intro h
    linarith
  by_cases hc2 : p2 * q2 > stmid.cash
  · rw [exec_reject_cash stmid oid2 symbol "buy" q2 p2 qs hbuy hc2] at hs2
    simp [reject_result] at hs2
  by_cases hsz2 : trade_percent stmid (p2 * q2) > stmid.max_position_size
  · rw [exec_reject_size stmid oid2 symbol "buy" q2 p2 qs hbuy hc2 hsz2] at hs2
    simp [reject_result] at hs2
  rw [exec_buy_merge stmid oid2 symbol "buy" q2 p2 qs (buy_new_position q1 p1)
    hbuy hc2 hsz2 hpos1 hnz]
  refine ⟨buy_merged_position (buy_new_position q1 p1) q2 p2, ?_, ?_, ?_, ?_⟩
  · rw [finish_success_positions]
    exact getPos_setPos_self _ _ _
  · simp [buy_merged_position, buy_new_position]
  · simp only [buy_merged_position, buy_new_position]
    ring_nf
  · simp only [buy_merged_position, buy_new_position]
    ring

/-- Witness for C4: starting from $100,000, buy 10 shares at $150 and then 5 at
$160: quantity 15, average price (10*150 + 5*160)/15, cost basis 2300. -/
theorem average_cost_two_buys_witness :
    ∃ pos,
      getPos (execute_order
          (execute_order ⟨100000, [], [], 5/100, 100000⟩
            ⟨none, some "AAPL", some "buy", some 10⟩ [150, 160]).2.1
          ⟨none, some "AAPL", some "buy", some 5⟩
          (execute_order ⟨100000, [], [], 5/100, 100000⟩
            ⟨none, some "AAPL", some "buy", some 10⟩ [150, 160]).2.2).2.1.positions
        "AAPL" = some pos
      ∧ pos.quantity = 10 + 5
      ∧ pos.avg_entry_price = (10 * 150 + 5 * 160) / (10 + 5)
      ∧ pos.cost_basis = 10 * 150 + 5 * 160 :=
  average_cost_two_buys ⟨100000, [], [], 5/100, 100000⟩ none none "AAPL" 10 5 150 160 []
    (by norm_num) (by norm_num) rfl
    (by norm_num [execute_order, execute_order_inner, finish_success, getPos, setPos,
      sumMV, trade_percent, portfolio_value, lower_buy, lower_buy_ne_sell,
      buy_new_position])
    (by norm_num [execute_order, execute_order_inner, finish_success, getPos, setPos,
      sumMV, trade_percent, portfolio_value, lower_buy, lower_buy_ne_sell,
      buy_new_position, buy_merged_position])

theorem update_position_idem (g : String → Option ℚ) (s : String) (p : Position) :
    update_position g s (update_position g s p) = update_position g s p := by
  cases h : g s <;> simp [update_position, h]

theorem update_list_idem (g : String → Option ℚ) (ps : List (String × Position)) :
    ((ps.map fun sp => (sp.1, update_position g sp.1 sp.2)).map
        fun sp => (sp.1, update_position g sp.1 sp.2))
      = ps.map fun sp => (sp.1, update_position g sp.1 sp.2) := by
  induction ps with
  | nil => rfl
  | cons hd tl ih => simp [ih, update_position_idem]

theorem update_positions_idem (g : String → Option ℚ) (st : TraderState) :
    update_positions g (update_positions g st) = update_positions g st := by
  unfold update_positions
  dsimp only
  rw [update_list_idem]

theorem update_list_core (g : String → Option ℚ) (ps : List (String × Position)) :
    ((ps.map fun sp => (sp.1, update_position g sp.1 sp.2)).map
        fun sp => (sp.1, sp.2.quantity, sp.2.avg_entry_price, sp.2.cost_basis))
      = ps.map fun sp => (sp.1, sp.2.quantity, sp.2.avg_entry_price, sp.2.cost_basis) := by
  induction ps with
  | nil => rfl
  | cons hd tl ih =>
      simp only [List.map_cons, ih, List.cons.injEq, and_true]
      cases h : g hd.1 <;> simp [update_position, h]

/-- Claim C8: the valuation pass is idempotent.  Running `get_portfolio_value`
(which runs `_update_positions`) a second time with the same quotes returns the
identical result dictionary — same derived position fields, same
`positions_value`, same `equity` — and the identical state; and the pass leaves
`quantity`, `avg_entry_price` and `cost_basis` of every position unchanged. -/
theorem valuation_idempotent (g : String → Option ℚ) (st : TraderState) :
    get_portfolio_value g ((get_portfolio_value g st).2) = get_portfolio_value g st
    ∧ ((get_portfolio_value g st).2).positions.map
        (fun sp => (sp.1, sp.2.quantity, sp.2.avg_entry_price, sp.2.cost_basis))
      = st.positions.map
        (fun sp => (sp.1, sp.2.quantity, sp.2.avg_entry_price, sp.2.cost_basis)) := by
  constructor
  · show get_portfolio_value g (update_positions g st) = get_portfolio_value g st
    unfold get_portfolio_value
    rw [update_positions_idem]
  · show (update_positions g st).positions.map _ = _
    unfold update_positions
    exact update_list_core g st.positions

theorem quotes_step_subset (st : TraderState) (o : OrderIn) (quotes : List ℚ) :
    ∀ x ∈ (execute_order st o quotes).2.2, x ∈ quotes := by
  refine exec_cases st o quotes (fun out => ∀ x ∈ out.2.2, x ∈ quotes)
    ?_ ?_ ?_ ?_ ?_ ?_ ?_ ?_ ?_ ?_ ?_ ?_ <;> (try dsimp only) <;> intros <;>
    simp_all [finish_success_quotes]

theorem cash_nonneg_step (st : TraderState) (o : OrderIn) (quotes : List ℚ)
    (hc : 0 ≤ st.cash)
    (hq : ∀ qv, o.quantity = some qv → 0 < qv)
    (hp : ∀ x ∈ quotes, 0 < x) :
    0 ≤ (execute_order st o quotes).2.1.cash := by
  refine exec_cases st o quotes (fun out => 0 ≤ out.2.1.cash)
    ?_ ?_ ?_ ?_ ?_ ?_ ?_ ?_ ?_ ?_ ?_ ?_ <;> (try dsimp only)
  · intro _
    exact hc
  · intro _ _ _ _ _ _
    exact hc
  · intro _ _ _ _ _ _ _ _ _ _
    exact hc
  · intro _ _ _ _ _ _ _ _ _ _ _
    exact hc
  · intro oid symbol side q p qs ho hqq hbuy hcgt hsz hget
    rw [finish_success_cash]
    dsimp only
    have : p * q ≤ st.cash := not_lt.mp hcgt
    linarith
  · intro oid symbol side q p qs position ho hqq hbuy hcgt hsz hget hnz
    rw [finish_success_cash]
    dsimp only
    have : p * q ≤ st.cash := not_lt.mp hcgt
    linarith
  · intro oid symbol side q p qs position ho hqq hbuy hcgt hsz hget hz
    have : p * q ≤ st.cash := not_lt.mp hcgt
    show 0 ≤ st.cash - p * q
    linarith
  · intro _ _ _ _ _ _ _ _ _ _
    exact hc
  · intro _ _ _ _ _ _ _ _ _ _ _ _
    exact hc
  · intro oid symbol side q p qs position ho hqq hsell hget hnlt heq
    rw [finish_success_cash]
    dsimp only
    have hp0 : 0 < p := hp p (by rw [hqq]; exact List.mem_cons_self p qs)
    have hq0 : 0 < q := hq q (by rw [ho])
    nlinarith
  · intro oid symbol side q p qs position ho hqq hsell hget hnlt hne
    rw [finish_success_cash]
    dsimp only
    have hp0 : 0 < p := hp p (by rw [hqq]; exact List.mem_cons_self p qs)
    have hq0 : 0 < q := hq q (by rw [ho])
    nlinarith
  · intro _ _ _ _ _ _ _ _ _ _
    rw [finish_success_cash]
    exact hc

/-- Claim C2: starting from any state with non-negative cash (in particular the
initial state with `cash = initial_capital ≥ 0`), after any sequence of
`execute_order` calls whose order quantities are positive and whose quoted prices
are positive, the cash balance is still non-negative; since the statement covers
every prefix, cash is non-negative after every call. -/
theorem no_negative_cash (st : TraderState) (os : List OrderIn) (qs : List ℚ)
    (hc : 0 ≤ st.cash)
    (hq : ∀ o ∈ os, ∀ qv, o.quantity = some qv → 0 < qv)
    (hp : ∀ x ∈ qs, 0 < x) :
    0 ≤ (run_orders st os qs).1.cash := by
  induction os generalizing st qs with
  | nil => simpa [run_orders] using hc
  | cons o os ih =>
      rw [run_orders]
      refine ih (execute_order st o qs).2.1 (execute_order st o qs).2.2 ?_ ?_ ?_
      · exact cash_nonneg_step st o qs hc
          (hq o (List.mem_cons_self o os)) hp
      · intro o2 ho2 qv hqv
        exact hq o2 (List.mem_cons_of_mem o ho2) qv hqv
      · intro x hx
        exact hp x (quotes_step_subset st o qs x hx)

/-- Witness for C2: from $1000, a buy of 10 shares at $50 followed by a sell of
3 shares at $60 leaves cash non-negative. -/
theorem no_negative_cash_witness :
    0 ≤ (run_orders ⟨1000, [], [], 1, 1000⟩
        [⟨none, some "A", some "buy", some 10⟩, ⟨none, some "A", some "sell", some 3⟩]
        [50, 60]).1.cash :=
  no_negative_cash ⟨1000, [], [], 1, 1000⟩
    [⟨none, some "A", some "buy", some 10⟩, ⟨none, some "A", some "sell", some 3⟩]
    [50, 60] (by norm_num)
    (by
      intro o ho qv hqv
      simp only [List.mem_cons, List.not_mem_nil, or_false] at ho
      rcases ho with rfl | rfl
      · have h10 : (10 : ℚ) = qv := by simpa using hqv
        rw [← h10]
        norm_num
      · have h3 : (3 : ℚ) = qv := by simpa using hqv
        rw [← h3]
        norm_num)
    (by
      intro x hx
      simp only [List.mem_cons, List.not_mem_nil, or_false] at hx
      rcases hx with rfl | rfl <;> norm_num)

theorem conservation_step (st : TraderState) (o : OrderIn) (quotes : List ℚ)
    (hwf : CostBasisWF st.positions)
    (hs : (execute_order st o quotes).1.success = true) :
    (execute_order st o quotes).2.1.cash
        + sumCB (execute_order st o quotes).2.1.positions
      = st.cash + sumCB st.positions + realized_pnl st o quotes := by
  rcases o with ⟨oid, osym, oside, oqty⟩
  rcases osym with _ | symbol
  · rw [exec_missing _ _ _ (Or.inl rfl)] at hs
    simp [error_result] at hs
  rcases oside with _ | side
  · rw [exec_missing _ _ _ (Or.inr (Or.inl rfl))] at hs
    simp [error_result] at hs
  rcases oqty with _ | q
  · rw [exec_missing _ _ _ (Or.inr (Or.inr rfl))] at hs
    simp [error_result] at hs
  rcases quotes with _ | ⟨p, qs⟩
  · rw [exec_no_quote] at hs
    simp [error_result] at hs
  by_cases hbuy : lower side = "buy"
  · have hnsell : ¬(lower side = "sell") := by rw [hbuy]; decide
    have hreal : realized_pnl st ⟨oid, some symbol, some side, some q⟩ (p :: qs) = 0 := by
      simp [realized_pnl, hnsell]
    rw [hreal]
    by_cases hc : p * q > st.cash
    · rw [exec_reject_cash st oid symbol side q p qs hbuy hc] at hs
      simp [reject_result] at hs
    by_cases hsz : trade_percent st (p * q) > st.max_position_size
    · rw [exec_reject_size st oid symbol side q p qs hbuy hc hsz] at hs
      simp [reject_result] at hs
    rcases hget : getPos st.positions symbol with _ | position
    · rw [exec_buy_new st oid symbol side q p qs hbuy hc hsz hget,
        finish_success_cash, finish_success_positions]
      dsimp only
      rw [sumCB_setPos_none _ hget]
      simp only [buy_new_position]
      ring
    · by_cases hz : position.quantity + q = 0
      · rw [exec_buy_merge_raise st oid symbol side q p qs position hbuy hc hsz hget hz]
          at hs
        simp [error_result] at hs
      · rw [exec_buy_merge st oid symbol side q p qs position hbuy hc hsz hget hz,
          finish_success_cash, finish_success_positions]
        dsimp only
        rw [sumCB_setPos_some _ hget]
        have hcb : position.cost_basis = position.quantity * position.avg_entry_price :=
          hwf _ (getPos_mem hget)
        simp only [buy_merged_position]
        rw [hcb]
        ring
  · by_cases hsell : lower side = "sell"
    · rcases hget : getPos st.positions symbol with _ | position
      · rw [exec_sell_nopos st oid symbol side q p qs hsell hget] at hs
        simp [reject_result] at hs
      by_cases hlt : position.quantity < q
      · rw [exec_sell_insufficient st oid symbol side q p qs position hsell hget hlt]
          at hs
        simp [reject_result] at hs
      have hcb : position.cost_basis = position.quantity * position.avg_entry_price :=
        hwf _ (getPos_mem hget)
      have hreal : realized_pnl st ⟨oid, some symbol, some side, some q⟩ (p :: qs)
          = (p - position.avg_entry_price) * q := by
        simp [realized_pnl, hsell, hs, hget]
      rw [hreal]
      by_cases heq : position.quantity = q
      · rw [exec_sell_close st oid symbol side q p qs position hsell hget hlt heq,
          finish_success_cash, finish_success_positions]
        dsimp only
        rw [sumCB_delPos_some hget, hcb, heq]
        ring
      · rw [exec_sell_reduce st oid symbol side q p qs position hsell hget hlt heq,
          finish_success_cash, finish_success_positions]
        dsimp only
        rw [sumCB_setPos_some _ hget]
        simp only [sell_reduced_position]
        rw [hcb]
        ring
    · have hreal : realized_pnl st ⟨oid, some symbol, some side, some q⟩ (p :: qs) = 0 := by
        simp [realized_pnl, hsell]
      rw [exec_other_side st oid symbol side q p qs hbuy hsell,
        finish_success_cash, finish_success_positions, hreal]
      ring

theorem costBasisWF_step (st : TraderState) (o : OrderIn) (quotes : List ℚ)
    (hwf : CostBasisWF st.positions) :
    CostBasisWF (execute_order st o quotes).2.1.positions := by
  refine exec_cases st o quotes (fun out => CostBasisWF out.2.1.positions)
    ?_ ?_ ?_ ?_ ?_ ?_ ?_ ?_ ?_ ?_ ?_ ?_ <;> (try dsimp only)
  · intro _
    exact hwf
  · intro _ _ _ _ _ _
    exact hwf
  · intro _ _ _ _ _ _ _ _ _ _
    exact hwf
  · intro _ _ _ _ _ _ _ _ _ _ _
    exact hwf
  · intro oid symbol side q p qs ho hqq hbuy hc hsz hget
    rw [finish_success_positions]
    dsimp only
    exact costBasisWF_setPos hwf (by simp [buy_new_position])
  · intro oid symbol side q p qs position ho hqq hbuy hc hsz hget hnz
    rw [finish_success_positions]
    dsimp only
    refine costBasisWF_setPos hwf ?_
    simp only [buy_merged_position]
    field_simp
  · intro _ _ _ _ _ _ _ _ _ _ _ _ _ _
    exact hwf
  · intro _ _ _ _ _ _ _ _ _ _
    exact hwf
  · intro _ _ _ _ _ _ _ _ _ _ _ _
    exact hwf
  · intro oid symbol side q p qs position ho hqq hsell hget hnlt heq
    rw [finish_success_positions]
    dsimp only
    exact costBasisWF_delPos hwf
  · intro oid symbol side q p qs position ho hqq hsell hget hnlt hne
    rw [finish_success_positions]
    dsimp only
    exact costBasisWF_setPos hwf (by simp [sell_reduced_position])
  · intro _ _ _ _ _ _ _ _ _ _
    rw [finish_success_positions]
    exact hwf

/-- Counterexample to C1 as stated: from $100 and no positions (cash ≥ 0 and the
positions well formed), buying 1 share at $10 and selling it at $20 are both
successful fills, yet `cash + Σ cost_basis` goes from 100 to 110 — the equality of
the claim fails as soon as a sell fills away from its average entry price. -/
theorem conservation_counterexample :
    all_succeed ⟨100, [], [], 1, 100⟩
        [⟨none, some "A", some "buy", some 1⟩, ⟨none, some "A", some "sell", some 1⟩]
        [10, 20] = true
    ∧ CostBasisWF (⟨100, [], [], 1, 100⟩ : TraderState).positions
    ∧ ¬((run_orders ⟨100, [], [], 1, 100⟩
          [⟨none, some "A", some "buy", some 1⟩, ⟨none, some "A", some "sell", some 1⟩]
          [10, 20]).1.cash
        + sumCB (run_orders ⟨100, [], [], 1, 100⟩
          [⟨none, some "A", some "buy", some 1⟩, ⟨none, some "A", some "sell", some 1⟩]
          [10, 20]).1.positions
      = (100 : ℚ) + sumCB ([] : List (String × Position))) := by
  refine ⟨?_, ?_, ?_⟩
  · norm_num [all_succeed, execute_order, execute_order_inner, finish_success, getPos,
      setPos, delPos, sumMV, trade_percent, portfolio_value, lower_buy,
      lower_buy_ne_sell, lower_sell_ne_buy, lower_sell, buy_new_position]
  · simp [CostBasisWF]
  · norm_num [run_orders, execute_order, execute_order_inner, finish_success, getPos,
      setPos, delPos, sumMV, sumCB, trade_percent, portfolio_value, lower_buy,
      lower_buy_ne_sell, lower_sell_ne_buy, lower_sell, buy_new_position]

/-- Claim C1 (amended): over any sequence of successful fills from a state with
well-formed positions, `cash + Σ cost_basis` after the sequence equals its value
before the sequence **plus the realized P&L of the sell fills** (the `trade_pl`
of line 297, `(price − avg_entry_price) × quantity` per sell); buys and
same-price sells conserve it exactly. -/
theorem conservation_up_to_realized (st : TraderState) (os : List OrderIn)
    (qs : List ℚ) (hwf : CostBasisWF st.positions)
    (hs : all_succeed st os qs = true) :
    (run_orders st os qs).1.cash + sumCB (run_orders st os qs).1.positions
      = st.cash + sumCB st.positions + total_realized st os qs := by
  induction os generalizing st qs with
  | nil => simp [run_orders, total_realized]
  | cons o os ih =>
      rw [run_orders, total_realized]
      rw [all_succeed, Bool.and_eq_true] at hs
      have hstep := conservation_step st o qs hwf hs.1
      have hwf2 := costBasisWF_step st o qs hwf
      rw [ih (execute_order st o qs).2.1 (execute_order st o qs).2.2 hwf2 hs.2, hstep]
      ring

/-- Witness for the amended C1 at the counterexample's input: the buy conserves
and the sell adds exactly its realized P&L. -/
theorem conservation_up_to_realized_witness :
    (run_orders ⟨100, [], [], 1, 100⟩
        [⟨none, some "A", some "buy", some 1⟩, ⟨none, some "A", some "sell", some 1⟩]
        [10, 20]).1.cash
      + sumCB (run_orders ⟨100, [], [], 1, 100⟩
        [⟨none, some "A", some "buy", some 1⟩, ⟨none, some "A", some "sell", some 1⟩]
        [10, 20]).1.positions
      = (100 : ℚ) + sumCB ([] : List (String × Position))
        + total_realized ⟨100, [], [], 1, 100⟩
          [⟨none, some "A", some "buy", some 1⟩, ⟨none, some "A", some "sell", some 1⟩]
          [10, 20] :=
  conservation_up_to_realized ⟨100, [], [], 1, 100⟩
    [⟨none, some "A", some "buy", some 1⟩, ⟨none, some "A", some "sell", some 1⟩]
    [10, 20] (by simp [CostBasisWF])
    (by norm_num [all_succeed, execute_order, execute_order_inner, finish_success,
      getPos, setPos, delPos, sumMV, trade_percent, portfolio_value, lower_buy,
      lower_buy_ne_sell, lower_sell_ne_buy, lower_sell, buy_new_position])

/-- Claim C10: one `execute_order` call consumes exactly one quote from the quote
stream, and that single quoted value `p` is the price of the whole call: it is the
reported fill price, the fill value is `quantity * p`, any cash movement is exactly
`± p * quantity`, and a buy that merges into an existing position merges at that
same `p` (`buy_merged_position position q p`). -/
theorem single_quote_per_execution (st : TraderState) (oid : Option ℕ)
    (symbol side : String) (q p : ℚ) (qs : List ℚ)
    (hq : 0 < q) (hpos : QuantitiesPos st.positions) :
    (execute_order st ⟨oid, some symbol, some side, some q⟩ (p :: qs)).2.2 = qs
    ∧ (execute_order st ⟨oid, some symbol, some side, some q⟩ (p :: qs)).1.price
        = some p
    ∧ ((execute_order st ⟨oid, some symbol, some side, some q⟩ (p :: qs)).2.1.cash
          = st.cash
        ∨ (execute_order st ⟨oid, some symbol, some side, some q⟩ (p :: qs)).2.1.cash
          = st.cash - p * q
        ∨ (execute_order st ⟨oid, some symbol, some side, some q⟩ (p :: qs)).2.1.cash
          = st.cash + p * q)
    ∧ ((execute_order st ⟨oid, some symbol, some side, some q⟩ (p :: qs)).1.value
          = none
        ∨ (execute_order st ⟨oid, some symbol, some side, some q⟩ (p :: qs)).1.value
          = some (q * p))
    ∧ (∀ position, getPos st.positions symbol = some position →
        lower side = "buy" →
        (execute_order st ⟨oid, some symbol, some side, some q⟩ (p :: qs)).1.success
          = true →
        getPos (execute_order st ⟨oid, some symbol, some side, some q⟩
            (p :: qs)).2.1.positions symbol
          = some (buy_merged_position position q p)) := by
  by_cases hbuy : lower side = "buy"
  · by_cases hc : p * q > st.cash
    · rw [exec_reject_cash st oid symbol side q p qs hbuy hc]
      refine ⟨rfl, rfl, Or.inl rfl, Or.inl rfl, fun position hget hb hsucc => ?_⟩
      simp [reject_result] at hsucc
    by_cases hsz : trade_percent st (p * q) > st.max_position_size
    · rw [exec_reject_size st oid symbol side q p qs hbuy hc hsz]
      refine ⟨rfl, rfl, Or.inl rfl, Or.inl rfl, fun position hget hb hsucc => ?_⟩
      simp [reject_result] at hsucc
    rcases hget : getPos st.positions symbol with _ | position
    · rw [exec_buy_new st oid symbol side q p qs hbuy hc hsz hget]
      refine ⟨finish_success_quotes _ _ _ _ _ _ _, finish_success_price _ _ _ _ _ _ _,
        Or.inr (Or.inl (by rw [finish_success_cash])),
        Or.inr (finish_success_value _ _ _ _ _ _ _), fun position h2 hb hsucc => ?_⟩
      exact Option.noConfusion h2
    · have hnz : ¬(position.quantity + q = 0) := by
        have h0 : 0 < position.quantity := hpos _ (getPos_mem hget)
        intro h
        linarith
      rw [exec_buy_merge st oid symbol side q p qs position hbuy hc hsz hget hnz]
      refine ⟨finish_success_quotes _ _ _ _ _ _ _, finish_success_price _ _ _ _ _ _ _,
        Or.inr (Or.inl (by rw [finish_success_cash])),
        Or.inr (finish_success_value _ _ _ _ _ _ _), fun position2 h2 hb hsucc => ?_⟩
      injection h2 with h2
      rw [h2, finish_success_positions]
      dsimp only
      exact getPos_setPos_self _ _ _
  · by_cases hsell : lower side = "sell"
    · rcases hget : getPos st.positions symbol with _ | position
      · rw [exec_sell_nopos st oid symbol side q p qs hsell hget]
        exact ⟨rfl, rfl, Or.inl rfl, Or.inl rfl, fun _ _ hb _ => absurd hb hbuy⟩
      by_cases hlt : position.quantity < q
      · rw [exec_sell_insufficient st oid symbol side q p qs position hsell hget hlt]
        exact ⟨rfl, rfl, Or.inl rfl, Or.inl rfl, fun _ _ hb _ => absurd hb hbuy⟩
      by_cases heq : position.quantity = q
      · rw [exec_sell_close st oid symbol side q p qs position hsell hget hlt heq]
        exact ⟨finish_success_quotes _ _ _ _ _ _ _, finish_success_price _ _ _ _ _ _ _,
          Or.inr (Or.inr (by rw [finish_success_cash])),
          Or.inr (finish_success_value _ _ _ _ _ _ _), fun _ _ hb _ => absurd hb hbuy⟩
      · rw [exec_sell_reduce st oid symbol side q p qs position hsell hget hlt heq]
        exact ⟨finish_success_quotes _ _ _ _ _ _ _, finish_success_price _ _ _ _ _ _ _,
          Or.inr (Or.inr (by rw [finish_success_cash])),
          Or.inr (finish_success_value _ _ _ _ _ _ _), fun _ _ hb _ => absurd hb hbuy⟩
    · rw [exec_other_side st oid symbol side q p qs hbuy hsell]
      exact ⟨finish_success_quotes _ _ _ _ _ _ _, finish_success_price _ _ _ _ _ _ _,
        Or.inl (finish_success_cash _ _ _ _ _ _ _),
        Or.inr (finish_success_value _ _ _ _ _ _ _), fun _ _ hb _ => absurd hb hbuy⟩

/-- Witness for C10 at a concrete buy: 10 shares quoted at $50 from $1000 cash. -/
theorem single_quote_per_execution_witness :
    (execute_order ⟨1000, [], [], 1, 1000⟩ ⟨none, some "A", some "buy", some 10⟩
        [50, 60]).2.2 = [60]
    ∧ (execute_order ⟨1000, [], [], 1, 1000⟩ ⟨none, some "A", some "buy", some 10⟩
        [50, 60]).1.price = some 50
    ∧ ((execute_order ⟨1000, [], [], 1, 1000⟩ ⟨none, some "A", some "buy", some 10⟩
          [50, 60]).2.1.cash = (1000 : ℚ)
        ∨ (execute_order ⟨1000, [], [], 1, 1000⟩ ⟨none, some "A", some "buy", some 10⟩
          [50, 60]).2.1.cash = (1000 : ℚ) - 50 * 10
        ∨ (execute_order ⟨1000, [], [], 1, 1000⟩ ⟨none, some "A", some "buy", some 10⟩
          [50, 60]).2.1.cash = (1000 : ℚ) + 50 * 10)
    ∧ ((execute_order ⟨1000, [], [], 1, 1000⟩ ⟨none, some "A", some "buy", some 10⟩
          [50, 60]).1.value = none
        ∨ (execute_order ⟨1000, [], [], 1, 1000⟩ ⟨none, some "A", some "buy", some 10⟩
          [50, 60]).1.value = some (10 * 50))
    ∧ (∀ position,
        getPos (⟨1000, [], [], 1, 1000⟩ : TraderState).positions "A" = some position →
        lower "buy" = "buy" →
        (execute_order ⟨1000, [], [], 1, 1000⟩ ⟨none, some "A", some "buy", some 10⟩
            [50, 60]).1.success = true →
        getPos (execute_order ⟨1000, [], [], 1, 1000⟩
            ⟨none, some "A", some "buy", some 10⟩ [50, 60]).2.1.positions "A"
          = some (buy_merged_position position 10 50)) :=
  single_quote_per_execution ⟨1000, [], [], 1, 1000⟩ none "A" "buy" 10 50 [60]
    (by norm_num) (by simp [QuantitiesPos])

/-- Claim C3 fails on the code (code bug): `execute_order` returns the risk
rejection without ever writing `REJECTED` to the order row (the status update of
lines 315-331 is only reached on the success path), so the rejected order still
has status `NEW` and the next `process_pending_orders` fetches and executes the
very same order again.  Here: $1000 cash, a pending BUY of 100 shares quoted at
$20 — rejected for insufficient cash, status still `NEW`, re-executed (and
re-rejected) by the second `process_pending_orders`. -/
theorem rejected_order_retried :
    ((process_pending_orders
        ⟨1000, [], [⟨1, "AAPL", "buy", 100, OrderStatus.new, 0, none⟩], 5/100, 1000⟩
        [20, 20]).1.map (fun r => r.success) = [false])
    ∧ (process_pending_orders
        ⟨1000, [], [⟨1, "AAPL", "buy", 100, OrderStatus.new, 0, none⟩], 5/100, 1000⟩
        [20, 20]).2.1.orders
      = [⟨1, "AAPL", "buy", 100, OrderStatus.new, 0, none⟩]
    ∧ ((process_pending_orders
        (process_pending_orders
          ⟨1000, [], [⟨1, "AAPL", "buy", 100, OrderStatus.new, 0, none⟩], 5/100, 1000⟩
          [20, 20]).2.1
        (process_pending_orders
          ⟨1000, [], [⟨1, "AAPL", "buy", 100, OrderStatus.new, 0, none⟩], 5/100, 1000⟩
          [20, 20]).2.2).1.map (fun r => r.success) = [false]) := by
  refine ⟨?_, ?_, ?_⟩ <;>
    norm_num [process_pending_orders, run_pending, orderInOf, execute_order,
      execute_order_inner, finish_success, getPos, setPos, delPos, sumMV,
      trade_percent, portfolio_value, lower_buy, lower_buy_ne_sell, reject_result,
      error_result, List.filter]

end AiCapital
